import Mathlib

/-!
A verification development for `haystack/nodes/file_converter/tika.py`.

Strings are modelled as `List Char` (one entry per Unicode code point, like a
Python `str`).  The stateful, callback-driven `TikaXHTMLParser` is modelled as
an explicit state machine driven by a forward-only stream of markup events
(start tag, end tag, character data), mirroring the dispatch performed by
`html.parser.HTMLParser`.  `TikaConverter.convert` is modelled as a pure
function of the parsed markup event stream, the service metadata, and the
caller-supplied arguments.
-/

set_option autoImplicit false

/-- The set of characters Python's `str.isspace` (and hence no-argument
`str.split` and `str.strip`) treats as whitespace. -/
def pyIsSpace (c : Char) : Bool :=
  c = ' ' || c = '\t' || c = '\n' || c = '\r' || c = '\x0b' || c = '\x0c' ||
  c = '\x1c' || c = '\x1d' || c = '\x1e' || c = '\x1f' || c = '\x85' || c = '\xa0' ||
  c = '\u1680' || ('\u2000' ≤ c && c ≤ '\u200a') || c = '\u2028' || c = '\u2029' ||
  c = '\u202f' || c = '\u205f' || c = '\u3000'

/-- The set of line boundaries recognised by Python's `str.splitlines`. -/
def pyIsBreak (c : Char) : Bool :=
  c = '\n' || c = '\r' || c = '\x0b' || c = '\x0c' ||
  c = '\x1c' || c = '\x1d' || c = '\x1e' || c = '\x85' ||
  c = '\u2028' || c = '\u2029'

/-- Prepend a character to the first line of a line list (starting a new
line when the list is empty). -/
def consLine (c : Char) : List (List Char) → List (List Char)
  | [] => [[c]]
  | l :: ls => (c :: l) :: ls

/-- Python's `str.splitlines`: split on every line boundary (`\r\n` counting
as a single boundary), dropping a trailing empty segment. -/
def pySplitlines : List Char → List (List Char)
  | [] => []
  | [c] => if pyIsBreak c then [[]] else [[c]]
  | c :: d :: rest =>
    if c = '\r' && d = '\n' then [] :: pySplitlines rest
    else if pyIsBreak c then [] :: pySplitlines (d :: rest)
    else consLine c (pySplitlines (d :: rest))

/-- Python's `sep.join(parts)` for a one-character separator. -/
def joinSep (sep : Char) : List (List Char) → List Char
  | [] => []
  | [l] => l
  | l :: l2 :: ls => l ++ sep :: joinSep sep (l2 :: ls)

/-- Python's `"".join(parts)`. -/
def joinAll : List (List Char) → List Char
  | [] => []
  | l :: ls => l ++ joinAll ls

/-- Python's no-argument `str.split`: split on runs of whitespace, never
producing empty words. -/
def pySplit : List Char → List (List Char)
  | [] => []
  | c :: rest =>
    if pyIsSpace c then pySplit rest
    else
      match rest with
      | [] => [[c]]
      | d :: _ => if pyIsSpace d then [c] :: pySplit rest else consLine c (pySplit rest)

/-- Python's no-argument `str.strip`. -/
def pyStrip (l : List Char) : List Char :=
  ((l.dropWhile pyIsSpace).reverse.dropWhile pyIsSpace).reverse

/-- Python's `s.endswith(".")`. -/
def endsWithPeriod (l : List Char) : Bool :=
  decide (l.getLast? = some '.')

/-- `isPre p s`: `p` occurs at the start of `s`. -/
def isPre : List Char → List Char → Bool
  | [], _ => true
  | _ :: _, [] => false
  | a :: as, b :: bs => a = b && isPre as bs

/-- `hasSub p s`: `p` occurs as a contiguous substring of `s`. -/
def hasSub (p : List Char) : List Char → Bool
  | [] => p.isEmpty
  | c :: s => isPre p (c :: s) || hasSub p s

/-- Python's `page.replace("-\n", "")`: a single left-to-right pass removing
every non-overlapping occurrence of the two-character pattern. -/
def collapseHyphens : List Char → List Char
  | [] => []
  | [c] => [c]
  | c :: d :: rest =>
    if c = '-' && d = '\n' then collapseHyphens rest
    else c :: collapseHyphens (d :: rest)

/-- One markup event as dispatched by `html.parser.HTMLParser` to
`TikaXHTMLParser`'s handlers. -/
inductive MarkupEvent where
  | startTag (tag : String) (attrs : List (String × String))
  | endTag (tag : String)
  | charData (text : List Char)
  deriving DecidableEq, Repr

/-- The mutable state of `TikaXHTMLParser`: the `ingest` flag, the current
page accumulator `page`, and the flushed `pages`. -/
structure SplitState where
  ingest : Bool
  page : List Char
  pages : List (List Char)
  deriving DecidableEq, Repr

/-- `TikaXHTMLParser.__init__`: `ingest = True`, empty accumulator, no pages. -/
def initState : SplitState := ⟨true, [], []⟩

/-- `TikaXHTMLParser.handle_starttag`: a `div` start tag with a
`class="page"` attribute re-enables ingestion. -/
def handleStarttag (s : SplitState) (tag : String) (attrs : List (String × String)) : SplitState :=
  if tag == "div" && attrs.any (fun av => av.1 == "class" && av.2 == "page") then
    { s with ingest := true }
  else s

/-- `TikaXHTMLParser.handle_endtag`: a `div` or `body` end tag, while
ingesting, flushes the accumulator (with `"-\n"` collapsed) as a page. -/
def handleEndtag (s : SplitState) (tag : String) : SplitState :=
  if (tag == "div" || tag == "body") && s.ingest then
    { ingest := false, page := [], pages := s.pages ++ [collapseHyphens s.page] }
  else s

/-- `TikaXHTMLParser.handle_data`: character data is appended to the
accumulator while ingesting, and discarded otherwise. -/
def handleData (s : SplitState) (d : List Char) : SplitState :=
  if s.ingest then { s with page := s.page ++ d } else s

/-- Dispatch of one markup event to the matching handler. -/
def stepEvent (s : SplitState) : MarkupEvent → SplitState
  | .startTag tag attrs => handleStarttag s tag attrs
  | .endTag tag => handleEndtag s tag
  | .charData d => handleData s d

/-- Feeding a stream of markup events through the parser state machine. -/
def runEvents (s : SplitState) (es : List MarkupEvent) : SplitState :=
  es.foldl stepEvent s

/-- The page list produced by `TikaXHTMLParser` on a markup event stream. -/
def splitPages (es : List MarkupEvent) : List (List Char) :=
  (runEvents initState es).pages

/-- Variant of `handle_endtag` that flushes the raw accumulator without
collapsing `"-\n"`; used to relate output pages to their raw text. -/
def rawHandleEndtag (s : SplitState) (tag : String) : SplitState :=
  if (tag == "div" || tag == "body") && s.ingest then
    { ingest := false, page := [], pages := s.pages ++ [s.page] }
  else s

/-- Event dispatch for the raw-page variant of the splitter. -/
def rawStepEvent (s : SplitState) : MarkupEvent → SplitState
  | .startTag tag attrs => handleStarttag s tag attrs
  | .endTag tag => rawHandleEndtag s tag
  | .charData d => handleData s d

/-- Running the raw-page variant of the splitter. -/
def rawRunEvents (s : SplitState) (es : List MarkupEvent) : SplitState :=
  es.foldl rawStepEvent s

/-- The raw accumulated text of each page, before `"-\n"` collapsing. -/
def rawSplitPages (es : List MarkupEvent) : List (List Char) :=
  (rawRunEvents initState es).pages

/-- A word counts as numeric when it contains at least one digit character
(`any(i.isdigit() for i in word)`). -/
def wordHasDigit (w : List Char) : Bool :=
  w.any Char.isDigit

/-- The per-line drop test of `TikaConverter.convert`: with the flag set, a
line is skipped when it has words, more than 40% of them contain a digit,
and the stripped line does not end with a period.  The float comparison
`len(digits) / len(words) > 0.4` is modelled exactly by the integer
inequality `5 * digits > 2 * words`, with which IEEE double evaluation
agrees for all realistic list lengths. -/
def dropLine (removeNumericTables : Bool) (line : List Char) : Bool :=
  let words := pySplit line
  let digits := words.filter wordHasDigit
  removeNumericTables && !words.isEmpty &&
    decide (5 * digits.length > 2 * words.length) &&
    !endsWithPeriod (pyStrip line)

/-- The lines of a page that survive the numeric-table filter. -/
def keptLines (removeNumericTables : Bool) (page : List Char) : List (List Char) :=
  (pySplitlines page).filter (fun l => !dropLine removeNumericTables l)

/-- The per-page body of `TikaConverter.convert`'s cleaning loop:
`"\n".join(cleaned_lines)` over the surviving lines. -/
def cleanPage (removeNumericTables : Bool) (page : List Char) : List Char :=
  joinSep '\n' (keptLines removeNumericTables page)

/-- First-match association-list lookup, the lookup semantics of a Python
dict modelled as a duplicate-free key/value list. -/
def dlookup (d : List (String × String)) (k : String) : Option String :=
  match d with
  | [] => none
  | (k2, v) :: rest => if k2 = k then some v else dlookup rest k

/-- Inserting one key/value pair into a Python dict: an existing key keeps
its position and takes the new value, a new key is appended. -/
def dictUpdate (a : List (String × String)) (kv : String × String) : List (String × String) :=
  if a.any (fun p => p.1 == kv.1) then
    a.map (fun p => if p.1 == kv.1 then (p.1, kv.2) else p)
  else a ++ [kv]

/-- Python's `{**a, **b}`: start from `a` and insert `b`'s entries in order. -/
def dictMerge (a b : List (String × String)) : List (String × String) :=
  b.foldl dictUpdate a

/-- The first defined option. -/
def firstSome (a b : Option String) : Option String :=
  match a with
  | some v => some v
  | none => b

/-- Modelled from the spec: `BaseConverter.validate_language` is not under
`src/`; per the specification's language-validator contract it detects the
dominant language of the text and reports whether it is a member of the
allow-list.  The detector itself is abstracted as a function from text to a
language identifier. -/
def validateLanguage (detect : List Char → String) (text : List Char)
    (validLanguages : List String) : Bool :=
  validLanguages.contains (detect text)

/-- The observable outcome of `TikaConverter.convert`: the document content,
its merged metadata, and whether the language-mismatch warning fired. -/
structure ConversionResult where
  text : List Char
  meta : List (String × String)
  langWarning : Bool
  deriving DecidableEq, Repr

/-- `TikaConverter.convert`, modelled as a pure function of the markup event
stream of `parsed["content"]`, the service metadata `parsed["metadata"]`, and
the call arguments.  Pages are split, each page is cleaned line by line,
a non-empty allow-list triggers the language check over the concatenation of
the cleaned pages, the final text joins the cleaned pages with `"\f"`, and
the metadata is `{**parsed["metadata"], **(meta or {})}`. -/
def convert (events : List MarkupEvent) (serviceMeta : List (String × String))
    (meta : Option (List (String × String))) (removeNumericTables : Bool)
    (validLanguages : List String) (detect : List Char → String) : ConversionResult :=
  let cleanedPages := (splitPages events).map (cleanPage removeNumericTables)
  let documentText := joinAll cleanedPages
  { text := joinSep '\x0c' cleanedPages
    meta := dictMerge serviceMeta (meta.getD [])
    langWarning :=
      !validLanguages.isEmpty && !validateLanguage detect documentText validLanguages }

/-- The markup event stream of a Tika-shaped document: leading content (head
and title text), then one `<div class="page">…</div>` block per page, then
the body close. -/
def tikaDoc (pre : List Char) (cs : List (List Char)) : List MarkupEvent :=
  MarkupEvent.charData pre ::
    (cs.flatMap fun c =>
      [MarkupEvent.startTag "div" [("class", "page")],
       MarkupEvent.charData c,
       MarkupEvent.endTag "div"]) ++
    [MarkupEvent.endTag "body"]

/-- Events whose end tag would flush a page while ingesting. -/
def isFlushEnd : MarkupEvent → Bool
  | .endTag tag => tag == "div" || tag == "body"
  | _ => false

/-- Events that re-enable ingestion: a `div` start tag with `class="page"`. -/
def isPageStart : MarkupEvent → Bool
  | .startTag tag attrs => tag == "div" && attrs.any (fun av => av.1 == "class" && av.2 == "page")
  | _ => false

/-! ### Helper lemmas about the Python string primitives -/

lemma splitlines_nl_cons (rest : List Char) :
    pySplitlines ('\n' :: rest) = [] :: pySplitlines rest := by
  cases rest with
  | nil => rfl
  | cons e rest' => rfl

lemma splitlines_cons_nb (c d : Char) (t : List Char) (hc : pyIsBreak c = false) :
    pySplitlines (c :: d :: t) = consLine c (pySplitlines (d :: t)) := by
  have hcr : c ≠ '\r' := by
    intro h
    subst h
    exact absurd hc (by decide)
  simp only [pySplitlines]
  rw [if_neg, if_neg]
  · simp [hc]
  · simp [hcr]

lemma splitlines_single (k : List Char) (hbf : ∀ c ∈ k, pyIsBreak c = false) (hne : k ≠ []) :
    pySplitlines k = [k] := by
  induction k with
  | nil => exact absurd rfl hne
  | cons c k' ih =>
    have hc : pyIsBreak c = false := hbf c (by simp)
    cases k' with
    | nil => simp [pySplitlines, hc]
    | cons d k'' =>
      rw [splitlines_cons_nb c d k'' hc]
      rw [ih (fun x hx => hbf x (List.mem_cons_of_mem _ hx)) (by simp)]
      rfl

lemma splitlines_append (k rest : List Char) (hbf : ∀ c ∈ k, pyIsBreak c = false) :
    pySplitlines (k ++ '\n' :: rest) = k :: pySplitlines rest := by
  induction k with
  | nil => exact splitlines_nl_cons rest
  | cons c k' ih =>
    have hc : pyIsBreak c = false := hbf c (by simp)
    have ih' := ih (fun x hx => hbf x (List.mem_cons_of_mem _ hx))
    cases k' with
    | nil =>
      show pySplitlines (c :: '\n' :: rest) = [c] :: pySplitlines rest
      rw [splitlines_cons_nb c '\n' rest hc, splitlines_nl_cons rest]
      rfl
    | cons c2 k'' =>
      show pySplitlines (c :: c2 :: (k'' ++ '\n' :: rest)) = _
      rw [splitlines_cons_nb c c2 _ hc]
      rw [show pySplitlines (c2 :: (k'' ++ '\n' :: rest)) = pySplitlines ((c2 :: k'') ++ '\n' :: rest) from rfl]
      rw [ih']
      rfl

lemma mem_of_mem_consLine {c : Char} {L : List (List Char)} {l : List Char}
    (hl : l ∈ consLine c L) : ∀ ch ∈ l, ch = c ∨ ∃ t ∈ L, ch ∈ t := by
  cases L with
  | nil =>
    simp only [consLine, List.mem_singleton] at hl
    subst hl
    intro ch hch
    simp only [List.mem_singleton] at hch
    exact Or.inl hch
  | cons t ls =>
    simp only [consLine, List.mem_cons] at hl
    rcases hl with h | h
    · subst h
      intro ch hch
      rcases List.mem_cons.mp hch with h | h
      · exact Or.inl h
      · exact Or.inr ⟨t, List.mem_cons_self t ls, h⟩
    · intro ch hch
      exact Or.inr ⟨l, List.mem_cons_of_mem _ h, hch⟩

lemma lines_break_free (s : List Char) : ∀ l ∈ pySplitlines s, ∀ c ∈ l, pyIsBreak c = false := by
  induction s using pySplitlines.induct with
  | case1 => simp [pySplitlines]
  | case2 c hc =>
    simp only [pySplitlines, if_pos hc]
    intro l hl ch hch
    simp only [List.mem_singleton] at hl
    subst hl
    simp at hch
  | case3 c hc =>
    simp only [pySplitlines, if_neg hc]
    intro l hl ch hch
    simp only [List.mem_singleton] at hl
    subst hl
    simp only [List.mem_singleton] at hch
    subst hch
    simpa using hc
  | case4 c d rest hcd ih =>
    intro l hl
    rw [show pySplitlines (c :: d :: rest) = [] :: pySplitlines rest from by
      simp only [pySplitlines, if_pos hcd]] at hl
    rcases List.mem_cons.mp hl with h | h
    · subst h; intro ch hch; simp at hch
    · exact ih l h
  | case5 c d rest hcd hbrk ih =>
    intro l hl
    rw [show pySplitlines (c :: d :: rest) = [] :: pySplitlines (d :: rest) from by
      simp only [pySplitlines, if_neg hcd, if_pos hbrk]] at hl
    rcases List.mem_cons.mp hl with h | h
    · subst h; intro ch hch; simp at hch
    · exact ih l h
  | case6 c d rest hcd hbrk ih =>
    intro l hl
    rw [show pySplitlines (c :: d :: rest) = consLine c (pySplitlines (d :: rest)) from by
      simp only [pySplitlines, if_neg hcd, if_neg hbrk]] at hl
    intro ch hch
    rcases mem_of_mem_consLine hl ch hch with h | ⟨t, ht, hcht⟩
    · subst h
      simpa using hbrk
    · exact ih t ht ch hcht

lemma splitlines_join (K : List (List Char))
    (hbf : ∀ l ∈ K, ∀ c ∈ l, pyIsBreak c = false) (hlast : K.getLast? ≠ some []) :
    pySplitlines (joinSep '\n' K) = K := by
  induction K with
  | nil => rfl
  | cons k K' ih =>
    cases K' with
    | nil =>
      have hk : k ≠ [] := by
        intro h
        subst h
        exact hlast rfl
      exact splitlines_single k (hbf k (by simp)) hk
    | cons k2 K'' =>
      show pySplitlines (k ++ '\n' :: joinSep '\n' (k2 :: K'')) = k :: k2 :: K''
      rw [splitlines_append k _ (hbf k (by simp))]
      congr 1
      apply ih
      · intro l hl
        exact hbf l (List.mem_cons_of_mem _ hl)
      · simpa [List.getLast?_cons_cons] using hlast

lemma dropLine_false (l : List Char) : dropLine false l = false := by
  simp [dropLine]

lemma keptLines_break_free (flag : Bool) (p : List Char) :
    ∀ l ∈ keptLines flag p, ∀ c ∈ l, pyIsBreak c = false :=
  fun l hl => lines_break_free p l (List.mem_of_mem_filter hl)

/-- Claim C2 (amended): with the numeric-table flag disabled no line is ever
dropped, and the cleaned page is the input page split into lines and
re-joined with `"\n"` (the identity exactly when the input has no trailing
line boundary and uses only `"\n"` boundaries). -/
theorem tika_c2_flag_off (p : List Char) :
    cleanPage false p = joinSep '\n' (pySplitlines p) ∧
    (∀ l : List Char, dropLine false l = false) := by
  refine ⟨?_, dropLine_false⟩
  show joinSep '\n' ((pySplitlines p).filter _) = _
  rw [List.filter_eq_self.mpr (fun a _ => by simp [dropLine_false])]

/-- Claim C2 counterexample: with the flag disabled the cleaned page does not
always equal the input page — a trailing newline is removed. -/
theorem tika_c2_counterexample :
    cleanPage false ['a', '\n'] ≠ ['a', '\n'] ∧ cleanPage false ['a', '\n'] = ['a'] := by decide

/-- Claim C8 (amended): the per-page filter is idempotent on every page whose
surviving line list does not end in an empty line. -/
theorem tika_c8_filter_idempotent (flag : Bool) (p : List Char)
    (h : (keptLines flag p).getLast? ≠ some []) :
    cleanPage flag (cleanPage flag p) = cleanPage flag p := by
  show joinSep '\n' (keptLines flag (joinSep '\n' (keptLines flag p))) = _
  rw [show keptLines flag (joinSep '\n' (keptLines flag p)) =
      (keptLines flag p).filter (fun l => !dropLine flag l) from by
    rw [keptLines, splitlines_join _ (keptLines_break_free flag p) h]]
  have hf : (keptLines flag p).filter (fun l => !dropLine flag l) = keptLines flag p :=
    List.filter_eq_self.mpr (fun a ha => (List.mem_filter.mp ha).2)
  rw [hf]
  rfl

/-- Claim C8 witness: the idempotence theorem applied to a concrete page. -/
theorem tika_c8_filter_idempotent_witness :
    (keptLines true "ab\ncd".data).getLast? ≠ some [] ∧
    cleanPage true (cleanPage true "ab\ncd".data) = cleanPage true "ab\ncd".data :=
  ⟨by decide, tika_c8_filter_idempotent true _ (by decide)⟩

/-- Claim C8 counterexample: the filter is not idempotent in general — a page
of two empty lines cleans to a single newline, which cleans to empty. -/
theorem tika_c8_counterexample :
    cleanPage true (cleanPage true ['\n', '\n']) ≠ cleanPage true ['\n', '\n'] ∧
    cleanPage true ['\n', '\n'] = ['\n'] ∧ cleanPage true ['\n'] = [] := by decide

lemma ratio_gt_iff (w d : Nat) (hw : w ≠ 0) :
    5 * d > 2 * w ↔ (0.4 : ℚ) < (d : ℚ) / (w : ℚ) := by
  have hw0 : (0 : ℚ) < (w : ℚ) := by exact_mod_cast Nat.pos_of_ne_zero hw
  rw [lt_div_iff₀ hw0]
  constructor
  · intro h
    have h' : (2 * w : ℚ) < 5 * (d : ℚ) := by exact_mod_cast h
    linarith
  · intro h
    have h' : (2 * w : ℚ) < 5 * (d : ℚ) := by linarith
    exact_mod_cast h'

/-- Claim C3: with the numeric-table flag enabled, a line is dropped exactly
when its whitespace-split word list is non-empty, the fraction of words
containing a digit exceeds 0.4, and the stripped line does not end with a
period; a line with zero words is never dropped. -/
theorem tika_c3_drop_condition (l : List Char) :
    (dropLine true l = true ↔
      (pySplit l ≠ [] ∧
       (0.4 : ℚ) < (((pySplit l).filter wordHasDigit).length : ℚ) / ((pySplit l).length : ℚ) ∧
       endsWithPeriod (pyStrip l) = false)) ∧
    (pySplit l = [] → ∀ b : Bool, dropLine b l = false) := by
  constructor
  · simp only [dropLine, Bool.true_and, Bool.and_eq_true, Bool.not_eq_true',
      decide_eq_true_eq, List.isEmpty_eq_false, gt_iff_lt]
    constructor
    · rintro ⟨⟨h1, h2⟩, h3⟩
      have hw : (pySplit l).length ≠ 0 := fun hc => h1 (List.length_eq_zero.mp hc)
      exact ⟨h1, (ratio_gt_iff _ _ hw).mp h2, h3⟩
    · rintro ⟨h1, h2, h3⟩
      have hw : (pySplit l).length ≠ 0 := fun hc => h1 (List.length_eq_zero.mp hc)
      exact ⟨⟨h1, (ratio_gt_iff _ _ hw).mpr h2⟩, h3⟩
  · intro h b
    simp [dropLine, h]

/-- Claim C3 witness: the line `"1 2 3 x"` (digit ratio 3/4, no trailing
period) is dropped; a line of only whitespace has zero words and is kept. -/
theorem tika_c3_drop_condition_witness :
    dropLine true "1 2 3 x".data = true ∧ dropLine true "   ".data = false := by
  constructor
  · apply (tika_c3_drop_condition "1 2 3 x".data).1.mpr
    refine ⟨by decide, ?_, by decide⟩
    have e1 : ((pySplit "1 2 3 x".data).filter wordHasDigit).length = 3 := by decide
    have e2 : (pySplit "1 2 3 x".data).length = 4 := by decide
    rw [e1, e2]
    norm_num
  · exact (tika_c3_drop_condition "   ".data).2 (by decide) true

/-! ### Metadata-merge lemmas -/

lemma dlookup_eq_none (b : List (String × String)) (k : String)
    (h : k ∉ b.map Prod.fst) : dlookup b k = none := by
  induction b with
  | nil => rfl
  | cons p rest ih =>
    simp only [List.map_cons, List.mem_cons, not_or] at h
    cases p with
    | mk k2 v =>
      simp only [dlookup]
      rw [if_neg (fun hc => h.1 hc.symm)]
      exact ih h.2

lemma dlookup_map_update (a : List (String × String)) (k' v' k : String) (h : k' ≠ k) :
    dlookup (a.map (fun p => if p.1 == k' then (p.1, v') else p)) k = dlookup a k := by
  induction a with
  | nil => rfl
  | cons p rest ih =>
    cases p with
    | mk q w =>
      simp only [List.map_cons]
      by_cases hq : q = k'
      · rw [show (if ((q, w).1 == k') = true then ((q, w).1, v') else (q, w)) = (q, v') from by
          simp [hq]]
        have hqk : q ≠ k := by rw [hq]; exact h
        simp only [dlookup]
        rw [if_neg hqk, if_neg hqk]
        exact ih
      · rw [show (if ((q, w).1 == k') = true then ((q, w).1, v') else (q, w)) = (q, w) from by
          simp [hq]]
        simp only [dlookup]
        by_cases hk : q = k
        · rw [if_pos hk, if_pos hk]
        · rw [if_neg hk, if_neg hk]
          exact ih

lemma dictUpdate_cons_ne (p : String × String) (a : List (String × String))
    (kv : String × String) (h : p.1 ≠ kv.1) : dictUpdate (p :: a) kv = p :: dictUpdate a kv := by
  unfold dictUpdate
  rw [show (p :: a).any (fun q => q.1 == kv.1) = a.any (fun q => q.1 == kv.1) from by
    simp [List.any_cons, h]]
  by_cases ha : a.any (fun q => q.1 == kv.1)
  · rw [if_pos ha, if_pos ha, List.map_cons, if_neg (by simpa using h)]
  · rw [if_neg ha, if_neg ha, List.cons_append]

lemma dlookup_dictUpdate (a : List (String × String)) (k' v' k : String) :
    dlookup (dictUpdate a (k', v')) k = if k' = k then some v' else dlookup a k := by
  induction a with
  | nil =>
    show dlookup [(k', v')] k = _
    simp [dlookup]
  | cons p rest ih =>
    cases p with
    | mk q w =>
      by_cases hq : q = k'
      · subst hq
        rw [show dictUpdate ((q, w) :: rest) (q, v') =
            (q, v') :: rest.map (fun p => if p.1 == q then (p.1, v') else p) from by
          unfold dictUpdate
          rw [if_pos (by simp), List.map_cons]
          congr 1
          simp]
        simp only [dlookup]
        by_cases hk : q = k
        · rw [if_pos hk, if_pos hk]
        · rw [if_neg hk, if_neg hk, if_neg hk]
          exact dlookup_map_update rest q v' k hk
      · rw [dictUpdate_cons_ne (q, w) rest (k', v') hq]
        simp only [dlookup]
        by_cases hk : q = k
        · have hk' : k' ≠ k := by
            intro hc
            exact hq (hk.trans hc.symm)
          rw [if_pos hk, if_neg hk', if_pos hk]
        · rw [if_neg hk, ih]
          by_cases hk2 : k' = k
          · rw [if_pos hk2, if_pos hk2]
          · rw [if_neg hk2, if_neg hk2, if_neg hk]

lemma dlookup_dictMerge (a b : List (String × String))
    (hb : (b.map Prod.fst).Nodup) (k : String) :
    dlookup (dictMerge a b) k = firstSome (dlookup b k) (dlookup a k) := by
  induction b generalizing a with
  | nil => rfl
  | cons kv b' ih =>
    cases kv with
    | mk k' v' =>
      simp only [List.map_cons, List.nodup_cons] at hb
      show dlookup (dictMerge (dictUpdate a (k', v')) b') k = _
      rw [ih _ hb.2]
      by_cases hk : k' = k
      · subst hk
        rw [dlookup_eq_none b' k' hb.1]
        show dlookup (dictUpdate a (k', v')) k' = firstSome (dlookup ((k', v') :: b') k') _
        rw [dlookup_dictUpdate, if_pos rfl]
        simp [dlookup, firstSome]
      · rw [dlookup_dictUpdate, if_neg hk]
        show firstSome (dlookup b' k) (dlookup a k) = firstSome (dlookup ((k', v') :: b') k) _
        rw [show dlookup ((k', v') :: b') k = dlookup b' k from by simp [dlookup, hk]]

/-- Claim C5: the converted document's metadata behaves as the key-wise union
of the service metadata and the caller metadata, caller values winning on
collision (first conjunct: lookup semantics; second: a missing caller dict
leaves the service metadata untouched). -/
theorem tika_c5_meta_merge (events : List MarkupEvent) (sm : List (String × String))
    (f : Bool) (vl : List String) (d : List Char → String)
    (cm : List (String × String)) (hnd : (cm.map Prod.fst).Nodup) (k : String) :
    dlookup ((convert events sm (some cm) f vl d).meta) k =
      firstSome (dlookup cm k) (dlookup sm k) ∧
    (convert events sm none f vl d).meta = sm :=
  ⟨dlookup_dictMerge sm cm hnd k, rfl⟩

/-- Claim C5 witness: service metadata `{"title": "A"}` merged with caller
metadata `{"title": "B", "author": "C"}` gives the caller's title and the
union of keys. -/
theorem tika_c5_meta_merge_witness :
    dlookup ((convert (tikaDoc [] []) [("title", "A")]
      (some [("title", "B"), ("author", "C")]) false [] (fun _ => "en")).meta) "title" =
      some "B" ∧
    dlookup ((convert (tikaDoc [] []) [("title", "A")]
      (some [("title", "B"), ("author", "C")]) false [] (fun _ => "en")).meta) "author" =
      some "C" :=
  ⟨((tika_c5_meta_merge (tikaDoc [] []) [("title", "A")] false [] (fun _ => "en")
      [("title", "B"), ("author", "C")] (by decide) "title").1).trans (by decide),
   ((tika_c5_meta_merge (tikaDoc [] []) [("title", "A")] false [] (fun _ => "en")
      [("title", "B"), ("author", "C")] (by decide) "author").1).trans (by decide)⟩

/-- Claim C4: the language check never alters the conversion outcome — the
text and metadata are independent of the allow-list and the detector; with an
empty (or unset) allow-list the check is skipped and no warning fires; with a
non-empty allow-list the warning fires exactly when the detected dominant
language of the assembled text is not in the allow-list. -/
theorem tika_c4_language_check (events : List MarkupEvent) (sm : List (String × String))
    (m : Option (List (String × String))) (f : Bool) (vl : List String)
    (d d2 : List Char → String) :
    ((convert events sm m f vl d).text = (convert events sm m f [] d2).text ∧
     (convert events sm m f vl d).meta = (convert events sm m f [] d2).meta) ∧
    (convert events sm m f [] d).langWarning = false ∧
    (vl ≠ [] →
      ((convert events sm m f vl d).langWarning = true ↔
        vl.contains (d (joinAll ((splitPages events).map (cleanPage f)))) = false)) := by
  refine ⟨⟨rfl, rfl⟩, rfl, fun hvl => ?_⟩
  show (!vl.isEmpty && !validateLanguage d _ vl) = true ↔ _
  rw [validateLanguage]
  simp [List.isEmpty_eq_false.mpr hvl]

/-- Claim C4 witness: text detected as `"en"` against allow-list
`["de", "fr"]` fires the warning while the returned text matches the
unchecked conversion. -/
theorem tika_c4_language_check_witness :
    (convert (tikaDoc [] ["Hello".data]) [] none false ["de", "fr"]
      (fun _ => "en")).langWarning = true ∧
    (convert (tikaDoc [] ["Hello".data]) [] none false ["de", "fr"]
      (fun _ => "en")).text =
      (convert (tikaDoc [] ["Hello".data]) [] none false []
        (fun _ => "de")).text := by
  have h := tika_c4_language_check (tikaDoc [] ["Hello".data]) [] none false
    ["de", "fr"] (fun _ => "en") (fun _ => "de")
  exact ⟨(h.2.2 (by decide)).mpr (by decide), h.1.1⟩

/-! ### Splitter lemmas -/

lemma runEvents_blocks (cs : List (List Char)) (acc : List (List Char)) :
    runEvents ⟨false, [], acc⟩
      ((cs.flatMap fun c =>
        [MarkupEvent.startTag "div" [("class", "page")],
         MarkupEvent.charData c,
         MarkupEvent.endTag "div"]) ++ [MarkupEvent.endTag "body"]) =
      ⟨false, [], acc ++ cs.map collapseHyphens⟩ := by
  induction cs generalizing acc with
  | nil => simp [runEvents, stepEvent, handleEndtag]
  | cons c rest ih =>
    rw [List.flatMap_cons]
    simp only [List.nil_append, List.cons_append]
    rw [show ∀ es : List MarkupEvent,
        runEvents ⟨false, [], acc⟩
          (MarkupEvent.startTag "div" [("class", "page")] :: MarkupEvent.charData c ::
            MarkupEvent.endTag "div" :: es) =
        runEvents ⟨false, [], acc ++ [collapseHyphens c]⟩ es from fun es => rfl]
    rw [ih]
    simp

lemma splitPages_tikaDoc (pre : List Char) (cs : List (List Char)) :
    splitPages (tikaDoc pre cs) =
      match cs with
      | [] => [collapseHyphens pre]
      | c :: rest => collapseHyphens (pre ++ c) :: rest.map collapseHyphens := by
  cases cs with
  | nil => rfl
  | cons c rest =>
    show (runEvents initState (tikaDoc pre (c :: rest))).pages = _
    rw [show tikaDoc pre (c :: rest) =
        MarkupEvent.charData pre :: MarkupEvent.startTag "div" [("class", "page")] ::
          MarkupEvent.charData c :: MarkupEvent.endTag "div" ::
          ((rest.flatMap fun c =>
            [MarkupEvent.startTag "div" [("class", "page")],
             MarkupEvent.charData c,
             MarkupEvent.endTag "div"]) ++ [MarkupEvent.endTag "body"]) from by
      simp [tikaDoc]]
    rw [show ∀ es : List MarkupEvent,
        runEvents initState
          (MarkupEvent.charData pre :: MarkupEvent.startTag "div" [("class", "page")] ::
            MarkupEvent.charData c :: MarkupEvent.endTag "div" :: es) =
        runEvents ⟨false, [], [collapseHyphens (pre ++ c)]⟩ es from fun es => rfl]
    rw [runEvents_blocks]
    rfl

/-- Claim C1 (amended): for Tika-shaped markup — optional leading content,
then `N` page containers, then the body close — the splitter yields exactly
`N` pages when `N ≥ 1` (the leading content is merged into the first page,
not emitted as a page of its own), and exactly 1 page, flushed at the body
close, when there are no page containers. -/
theorem tika_c1_page_count (pre : List Char) (cs : List (List Char)) :
    splitPages (tikaDoc pre cs) =
      (match cs with
       | [] => [collapseHyphens pre]
       | c :: rest => collapseHyphens (pre ++ c) :: rest.map collapseHyphens) ∧
    (splitPages (tikaDoc pre cs)).length = max 1 cs.length := by
  refine ⟨splitPages_tikaDoc pre cs, ?_⟩
  rw [splitPages_tikaDoc pre cs]
  cases cs with
  | nil => rfl
  | cons c rest => simp [Nat.max_eq_right, Nat.le_add_left]

/-- Claim C1 counterexample: markup with one page-container close tag
followed by a body close yields one page, not two. -/
theorem tika_c1_counterexample :
    splitPages (tikaDoc [] [['A']]) = [['A']] ∧
    (splitPages (tikaDoc [] [['A']])).length ≠ 1 + 1 := by decide

/-- Claim C6: the final document text joins the cleaned pages with the
form-feed character; for a two-page Tika document whose cleaned pages equal
the pages themselves (no numeric noise), the text is
`page0 ++ '\x0c' :: page1`. -/
theorem tika_c6_pagebreak_join (events : List MarkupEvent) (sm : List (String × String))
    (m : Option (List (String × String))) (f : Bool) (vl : List String)
    (d : List Char → String) :
    (convert events sm m f vl d).text =
      joinSep '\x0c' ((splitPages events).map (cleanPage f)) ∧
    (∀ c0 c1 : List Char,
      cleanPage f (collapseHyphens c0) = collapseHyphens c0 →
      cleanPage f (collapseHyphens c1) = collapseHyphens c1 →
      (convert (tikaDoc [] [c0, c1]) sm m f vl d).text =
        collapseHyphens c0 ++ '\x0c' :: collapseHyphens c1) := by
  refine ⟨rfl, fun c0 c1 h0 h1 => ?_⟩
  show joinSep '\x0c' ((splitPages (tikaDoc [] [c0, c1])).map (cleanPage f)) = _
  rw [splitPages_tikaDoc]
  show joinSep '\x0c' [cleanPage f (collapseHyphens ([] ++ c0)), cleanPage f (collapseHyphens c1)] = _
  rw [List.nil_append, h0, h1]
  rfl

/-- Claim C6 witness: a concrete two-page document with the filter enabled
joins its pages with `'\x0c'`. -/
theorem tika_c6_pagebreak_join_witness :
    (convert (tikaDoc [] ["Hello".data, "World".data]) [] none true []
      (fun _ => "en")).text = "Hello\x0cWorld".data := by
  have h := (tika_c6_pagebreak_join (tikaDoc [] ["Hello".data, "World".data]) [] none true []
    (fun _ => "en")).2 "Hello".data "World".data (by decide) (by decide)
  exact h.trans (by decide)

lemma runEvents_pages_const (s : SplitState) (es : List MarkupEvent)
    (h : ∀ e ∈ es, isFlushEnd e = false) : (runEvents s es).pages = s.pages := by
  induction es generalizing s with
  | nil => rfl
  | cons e rest ih =>
    have he := h e (List.mem_cons_self e rest)
    have hr : ∀ e' ∈ rest, isFlushEnd e' = false :=
      fun e' h' => h e' (List.mem_cons_of_mem _ h')
    show (runEvents (stepEvent s e) rest).pages = s.pages
    rw [ih (stepEvent s e) hr]
    cases e with
    | startTag t a =>
      show (handleStarttag s t a).pages = s.pages
      unfold handleStarttag
      split <;> rfl
    | charData dt =>
      show (handleData s dt).pages = s.pages
      unfold handleData
      split <;> rfl
    | endTag t =>
      show (handleEndtag s t).pages = s.pages
      simp only [isFlushEnd] at he
      simp [handleEndtag, he]

/-- Claim C9 (amended): markup containing no `div` or `body` close tag at
all — in particular markup that never closes its body and closes no page
container — yields zero pages: everything accumulated is silently dropped,
and the splitter (a total function) does not fail. -/
theorem tika_c9_unterminated (es : List MarkupEvent)
    (h : ∀ e ∈ es, isFlushEnd e = false) : splitPages es = [] :=
  runEvents_pages_const initState es h

/-- Claim C9 witness: content and a page-container start with no close tags
produce no pages. -/
theorem tika_c9_unterminated_witness :
    splitPages [MarkupEvent.charData "lost".data,
      MarkupEvent.startTag "div" [("class", "page")],
      MarkupEvent.charData "more".data] = [] :=
  tika_c9_unterminated _ (by decide)

/-- Claim C9 counterexample: markup that never closes its body tag can still
yield a page — any `div` close tag while ingesting flushes one. -/
theorem tika_c9_counterexample :
    splitPages [MarkupEvent.charData ['A'], MarkupEvent.endTag "div"] = [['A']] ∧
    splitPages [MarkupEvent.charData ['A'], MarkupEvent.endTag "div"] ≠ [] := by decide

/-- Claim C10: once ingestion is off, every event other than a
`div class="page"` start tag — character data included — leaves the state
(and hence every output page) unchanged, and a `div class="page"` start tag
turns ingestion back on without touching the accumulated pages. -/
theorem tika_c10_idle_invariant (s : SplitState) (h : s.ingest = false) :
    (∀ es : List MarkupEvent, (∀ e ∈ es, isPageStart e = false) → runEvents s es = s) ∧
    (∀ e : MarkupEvent, isPageStart e = true → stepEvent s e = { s with ingest := true }) := by
  have hstep : ∀ e : MarkupEvent, isPageStart e = false → stepEvent s e = s := by
    intro e he
    cases e with
    | startTag t a =>
      show handleStarttag s t a = s
      simp only [isPageStart] at he
      simp [handleStarttag, he]
    | endTag t =>
      show handleEndtag s t = s
      simp [handleEndtag, h]
    | charData dt =>
      show handleData s dt = s
      simp [handleData, h]
  constructor
  · intro es hes
    induction es with
    | nil => rfl
    | cons e rest ih =>
      show runEvents (stepEvent s e) rest = s
      rw [hstep e (hes e (List.mem_cons_self e rest))]
      exact ih (fun e' h' => hes e' (List.mem_cons_of_mem _ h'))
  · intro e he
    cases e with
    | startTag t a =>
      show handleStarttag s t a = _
      simp only [isPageStart] at he
      simp [handleStarttag, he]
    | endTag t => simp [isPageStart] at he
    | charData dt => simp [isPageStart] at he

/-- Claim C10 witness: from an idle state, character data, a `div` close and
an unrelated start tag all leave the state untouched, and a page-container
start re-enables ingestion. -/
theorem tika_c10_idle_invariant_witness :
    runEvents ⟨false, ['x'], [['p']]⟩
      [MarkupEvent.charData "dropped".data, MarkupEvent.endTag "div",
       MarkupEvent.startTag "span" []] = ⟨false, ['x'], [['p']]⟩ ∧
    stepEvent ⟨false, ['x'], [['p']]⟩
      (MarkupEvent.startTag "div" [("class", "page")]) = ⟨true, ['x'], [['p']]⟩ := by
  have h := tika_c10_idle_invariant ⟨false, ['x'], [['p']]⟩ rfl
  exact ⟨h.1 _ (by decide), (h.2 _ (by decide)).trans rfl⟩

lemma stepEvent_raw (b : Bool) (pg : List Char) (acc : List (List Char)) (e : MarkupEvent) :
    stepEvent ⟨b, pg, acc.map collapseHyphens⟩ e =
      ⟨(rawStepEvent ⟨b, pg, acc⟩ e).ingest, (rawStepEvent ⟨b, pg, acc⟩ e).page,
       (rawStepEvent ⟨b, pg, acc⟩ e).pages.map collapseHyphens⟩ := by
  cases e with
  | startTag t a =>
    show handleStarttag ⟨b, pg, acc.map collapseHyphens⟩ t a =
      ⟨(handleStarttag ⟨b, pg, acc⟩ t a).ingest, (handleStarttag ⟨b, pg, acc⟩ t a).page,
       (handleStarttag ⟨b, pg, acc⟩ t a).pages.map collapseHyphens⟩
    unfold handleStarttag
    by_cases hc : (t == "div" && a.any fun av => av.1 == "class" && av.2 == "page") = true
    · rw [if_pos hc, if_pos hc]
    · rw [if_neg hc, if_neg hc]
  | charData dt =>
    show handleData _ dt = _
    unfold handleData
    cases b <;> rfl
  | endTag t =>
    show handleEndtag ⟨b, pg, acc.map collapseHyphens⟩ t =
      ⟨(rawHandleEndtag ⟨b, pg, acc⟩ t).ingest, (rawHandleEndtag ⟨b, pg, acc⟩ t).page,
       (rawHandleEndtag ⟨b, pg, acc⟩ t).pages.map collapseHyphens⟩
    by_cases hc : ((t == "div" || t == "body") && b) = true
    · simp [handleEndtag, rawHandleEndtag, hc]
    · simp [handleEndtag, rawHandleEndtag, hc]

lemma runEvents_raw (es : List MarkupEvent) :
    ∀ (b : Bool) (pg : List Char) (acc : List (List Char)),
    runEvents ⟨b, pg, acc.map collapseHyphens⟩ es =
      ⟨(rawRunEvents ⟨b, pg, acc⟩ es).ingest, (rawRunEvents ⟨b, pg, acc⟩ es).page,
       (rawRunEvents ⟨b, pg, acc⟩ es).pages.map collapseHyphens⟩ := by
  induction es with
  | nil => intro b pg acc; rfl
  | cons e rest ih =>
    intro b pg acc
    show runEvents (stepEvent _ e) rest = _
    rw [stepEvent_raw]
    rcases hr : rawStepEvent ⟨b, pg, acc⟩ e with ⟨b', pg', acc'⟩
    rw [show rawRunEvents ⟨b, pg, acc⟩ (e :: rest) = rawRunEvents (rawStepEvent ⟨b, pg, acc⟩ e) rest from rfl, hr]
    exact ih b' pg' acc'

lemma splitPages_eq_map_raw (es : List MarkupEvent) :
    splitPages es = (rawSplitPages es).map collapseHyphens := by
  have h := runEvents_raw es true [] []
  exact congrArg SplitState.pages h

lemma head_collapse (l : List Char) (h1 : l.head? ≠ some '\n')
    (h2 : isPre ['-', '\n'] l = false) : (collapseHyphens l).head? ≠ some '\n' := by
  match l with
  | [] => simp [collapseHyphens]
  | [c] => simpa [collapseHyphens] using h1
  | c :: d :: t =>
    by_cases hc : (decide (c = '-') && decide (d = '\n')) = true
    · exfalso
      simp only [Bool.and_eq_true, decide_eq_true_eq] at hc
      simp [isPre, hc.1, hc.2] at h2
    · rw [show collapseHyphens (c :: d :: t) = c :: collapseHyphens (d :: t) from by
        simp only [collapseHyphens, if_neg hc]]
      simpa using h1

lemma collapse_no_new_sub (r : List Char) (h : hasSub ['-', '-', '\n'] r = false) :
    hasSub ['-', '\n'] (collapseHyphens r) = false := by
  induction r using collapseHyphens.induct with
  | case1 => simp [collapseHyphens, hasSub]
  | case2 c => simp [collapseHyphens, hasSub, isPre]
  | case3 c d rest hcd ih =>
    simp only [Bool.and_eq_true, decide_eq_true_eq] at hcd
    obtain ⟨hc, hd⟩ := hcd
    subst hc
    subst hd
    rw [show collapseHyphens ('-' :: '\n' :: rest) = collapseHyphens rest from by
      simp [collapseHyphens]]
    apply ih
    simp only [hasSub, Bool.or_eq_false_iff] at h
    exact h.2.2
  | case4 c d rest hcd ih =>
    rw [show collapseHyphens (c :: d :: rest) = c :: collapseHyphens (d :: rest) from by
      simp only [collapseHyphens, if_neg hcd]]
    simp only [hasSub, Bool.or_eq_false_iff] at h ⊢
    have hds : hasSub ['-', '-', '\n'] (d :: rest) = false := by
      simp only [hasSub, Bool.or_eq_false_iff]
      exact ⟨h.2.1, h.2.2⟩
    refine ⟨?_, ih hds⟩
    by_cases hc : c = '-'
    · subst hc
      have hd : d ≠ '\n' := by
        intro hdd
        subst hdd
        exact hcd (by decide)
      have hp : isPre ['-', '\n'] (d :: rest) = false := by
        have h1 := h.1
        rwa [show isPre ['-', '-', '\n'] ('-' :: d :: rest) =
            (true && isPre ['-', '\n'] (d :: rest)) from rfl, Bool.true_and] at h1
      have hhd : (collapseHyphens (d :: rest)).head? ≠ some '\n' :=
        head_collapse (d :: rest) (by simpa using hd) hp
      rcases hX : collapseHyphens (d :: rest) with _ | ⟨x, xs⟩
      · simp [isPre]
      · rw [hX] at hhd
        simp only [List.head?_cons, ne_eq, Option.some_inj] at hhd
        simp only [isPre, Bool.and_eq_false_iff, decide_eq_false_iff_not]
        right
        left
        exact fun hcc => hhd hcc.symm
    · simp only [isPre, Bool.and_eq_false_iff, decide_eq_false_iff_not]
      left
      exact fun hcc => hc hcc.symm

/-- Claim C7 (amended): every flushed page is its raw accumulated text with
the non-overlapping occurrences of `"-\n"` removed in one left-to-right
pass; an output page contains no `"-\n"` provided its raw text contains no
`"--\n"` (removal can otherwise juxtapose a hyphen with a newline). -/
theorem tika_c7_hyphen_collapse (es : List MarkupEvent) :
    splitPages es = (rawSplitPages es).map collapseHyphens ∧
    (∀ r : List Char, hasSub ['-', '-', '\n'] r = false →
      hasSub ['-', '\n'] (collapseHyphens r) = false) :=
  ⟨splitPages_eq_map_raw es, fun r h => collapse_no_new_sub r h⟩

/-- Claim C7 witness: the page with raw text `"a-\nb"` flushes as `"ab"`,
which contains no `"-\n"`. -/
theorem tika_c7_hyphen_collapse_witness :
    splitPages [MarkupEvent.charData "a-\nb".data, MarkupEvent.endTag "body"] = [['a', 'b']] ∧
    hasSub ['-', '\n'] (collapseHyphens "a-\nb".data) = false := by
  have h := tika_c7_hyphen_collapse [MarkupEvent.charData "a-\nb".data, MarkupEvent.endTag "body"]
  exact ⟨h.1.trans (by decide), h.2 "a-\nb".data (by decide)⟩

/-- Claim C7 counterexample: the page with raw text `"--\n\n"` flushes as
`"-\n"`, so an output page can contain the substring `"-\n"`. -/
theorem tika_c7_counterexample :
    splitPages [MarkupEvent.charData "--\n\n".data, MarkupEvent.endTag "body"] = [['-', '\n']] ∧
    hasSub ['-', '\n'] ['-', '\n'] = true := by decide
